import Mathlib

/-!
Shallow embedding of the locast2tuner core (multiplexer/router, HTTP surface,
live stream relay engine) translated from `src/service/multiplexer.rs`,
`src/http/mod.rs` and `src/main.rs`, together with theorems settling the
specification claims about it.

Modelling conventions:
* Rust `usize` values are `Nat` with wrap-around written explicitly as `% 2 ^ 64`
  where an overflow could matter.
* Rust `f32` values are modelled by `F32M` below: exact rationals plus the
  infinities and NaN.  Binary32 rounding is not modelled; every theorem that
  evaluates the float model does so at values (small integers) that are exactly
  representable in binary32, where the model and the machine agree, including
  Rust's `Display` convention of rendering integral floats without a fractional
  part.
* Panics (`unwrap`, `panic!`, out-of-range slicing) are modelled as `Except.error`
  or `Option.none`.
* Network and clock effects are passed in explicitly as environment values.
* Logging statements are not modelled.
-/

/-- A station as produced by a backend catalog (`Station` in `service/station.rs`,
reconstructed from the fields used by `multiplexer.rs` and `http/mod.rs` and the
spec's data model). -/
structure Station where
  id : String
  name : String
  callSign : String
  callSign_remapped : Option String
  channel : Option String
  channel_remapped : Option String
  city : Option String
  logoUrl : Option String
  logo226Url : Option String
  active : Bool
  remapped : Option Bool
deriving Repr, DecidableEq

/-- One entry of the explicit channel-remap file (`ChannelRedef` in
`service/multiplexer.rs`). -/
structure ChannelRedef where
  original_call_sign : String
  remap_call_sign : String
  original_channel : String
  remap_channel : String
  active : Bool
deriving Repr, DecidableEq

/-- The entry type of `/map.json` (`ChannelRemapEntry` in `service/station.rs`,
reconstructed from its construction site in `http/mod.rs` `map_json`). -/
structure ChannelRemapEntry where
  original_call_sign : String
  remap_call_sign : String
  original_channel : String
  remap_channel : String
  city : String
  active : Bool
  remapped : Bool
deriving Repr, DecidableEq

/-! ### Rust numeric parsing and formatting models -/

def isAsciiDigit (c : Char) : Bool :=
  48 ≤ c.toNat && c.toNat ≤ 57

def decDigit? (c : Char) : Option Nat :=
  if isAsciiDigit c then some (c.toNat - 48) else none

/-- Hexadecimal digit value: `0-9`, `a-f` (code points 97-102, value 87 below
the code point) and `A-F` (65-70, value 55 below). -/
def hexDigit? (c : Char) : Option Nat :=
  let n := c.toNat
  if 48 ≤ n && n ≤ 57 then some (n - 48)
  else if 97 ≤ n && n ≤ 102 then some (n - 87)
  else if 65 ≤ n && n ≤ 70 then some (n - 55)
  else none

def parseRadixAux (digit : Char → Option Nat) (base : Nat) : Nat → List Char → Option Nat
  | acc, [] => some acc
  | acc, c :: cs =>
    match digit c with
    | some d => parseRadixAux digit base (acc * base + d) cs
    | none => none

/-- Rust's unsigned integer parsers accept one optional leading plus sign. -/
def stripPlusSign : List Char → List Char
  | '+' :: cs => cs
  | cs => cs

/-- Model of Rust `usize::from_str_radix` / `str::parse::<usize>` on a 64-bit
target: optional leading plus sign, then one or more digits of the base, with
an overflow check. -/
def parseRadixUsize (digit : Char → Option Nat) (base : Nat) (s : String) : Option Nat :=
  match stripPlusSign s.data with
  | [] => none
  | cs =>
    match parseRadixAux digit base 0 cs with
    | some v => if v < 2 ^ 64 then some v else none
    | none => none

def parseUsize (s : String) : Option Nat := parseRadixUsize decDigit? 10 s

def parseHexUsize (s : String) : Option Nat := parseRadixUsize hexDigit? 16 s

/-- Model of an `f32` value: an exact rational, or an infinity, or NaN.
Binary32 rounding is not modelled (see the file header). -/
inductive F32M where
  | finite (val : ℚ)
  | posInf
  | negInf
  | nan
deriving Repr, DecidableEq

def F32M.neg : F32M → F32M
  | .finite q => .finite (-q)
  | .posInf => .negInf
  | .negInf => .posInf
  | .nan => .nan

/-- IEEE addition on the model (exact on finite values). -/
def F32M.add : F32M → F32M → F32M
  | .nan, _ => .nan
  | _, .nan => .nan
  | .posInf, .negInf => .nan
  | .negInf, .posInf => .nan
  | .posInf, _ => .posInf
  | _, .posInf => .posInf
  | .negInf, _ => .negInf
  | _, .negInf => .negInf
  | .finite a, .finite b => .finite (a + b)

def decListVal (cs : List Char) : Nat :=
  cs.foldl (fun a c => 10 * a + (c.toNat - 48)) 0

/-- Mantissa part of Rust's float grammar: `digits`, `digits.digits?` or
`.digits` (at least one digit overall); returns the value and the rest of the
input. -/
def parseF32Mantissa (cs : List Char) : Option (ℚ × List Char) :=
  let ip := cs.takeWhile isAsciiDigit
  let rest := cs.dropWhile isAsciiDigit
  match rest with
  | '.' :: rest2 =>
    let fp := rest2.takeWhile isAsciiDigit
    let rest3 := rest2.dropWhile isAsciiDigit
    if ip.isEmpty && fp.isEmpty then none
    else some ((decListVal ip : ℚ) + (decListVal fp : ℚ) / ((10 : ℚ) ^ fp.length), rest3)
  | _ => if ip.isEmpty then none else some ((decListVal ip : ℚ), rest)

/-- Exponent part of Rust's float grammar (after the `e`): optional sign, then
one or more decimal digits. -/
def parseExpPart (cs : List Char) : Option Int :=
  let signAndDigits : Int × List Char :=
    match cs with
    | '+' :: r => (1, r)
    | '-' :: r => (-1, r)
    | r => (1, r)
  if signAndDigits.2.isEmpty || signAndDigits.2.any (fun c => !isAsciiDigit c) then none
  else some (signAndDigits.1 * (decListVal signAndDigits.2 : Int))

def parseF32Core (cs : List Char) : Option F32M :=
  let low := cs.map Char.toLower
  if low = ['i', 'n', 'f'] || low = ['i', 'n', 'f', 'i', 'n', 'i', 't', 'y'] then some .posInf
  else if low = ['n', 'a', 'n'] then some .nan
  else
    match parseF32Mantissa cs with
    | none => none
    | some (m, rest) =>
      match rest with
      | [] => some (.finite m)
      | c :: restExp =>
        if c = 'e' || c = 'E' then
          match parseExpPart restExp with
          | some e => some (.finite (m * (10 : ℚ) ^ e))
          | none => none
        else none

/-- Model of Rust `str::parse::<f32>`: optional sign, then a finite decimal
number, `inf`, `infinity` or `nan` (case-insensitive). -/
def parseF32 (s : String) : Option F32M :=
  match s.data with
  | [] => none
  | '+' :: cs => parseF32Core cs
  | '-' :: cs => (parseF32Core cs).map F32M.neg
  | cs => parseF32Core cs

/-- Smallest exponent `k` (up to the given fuel) such that `q * 10 ^ k` is an
integer. -/
def findPow10Aux (q : ℚ) : Nat → Nat → Option Nat
  | _, 0 => none
  | k, fuel + 1 =>
    if (q * (10 : ℚ) ^ k).den = 1 then some k else findPow10Aux q (k + 1) fuel

def findPow10 (q : ℚ) : Option Nat := findPow10Aux q 0 65

/-- Decimal rendering of a nonnegative rational with a terminating decimal
expansion, with the minimal number of fractional digits; an integral value is
rendered with no decimal point, matching Rust's `Display` for floats. -/
def ratToDecimalStringNonneg (q : ℚ) : String :=
  match findPow10 q with
  | none => "?"
  | some 0 => Nat.repr q.num.toNat
  | some (k + 1) =>
    let m := (q * (10 : ℚ) ^ (k + 1)).num.toNat
    let ds := Nat.repr m
    let ds := if ds.length < k + 2 then String.mk (List.replicate (k + 2 - ds.length) '0') ++ ds else ds
    ds.take (ds.length - (k + 1)) ++ "." ++ ds.drop (ds.length - (k + 1))

def ratToDecimalString (q : ℚ) : String :=
  if q < 0 then "-" ++ ratToDecimalStringNonneg (-q) else ratToDecimalStringNonneg q

/-- Model of Rust's `Display` (`to_string`) for `f32`: shortest decimal digits
(exact under this model), `inf`, `-inf`, `NaN`; integral values carry no
fractional part. -/
def F32M.display : F32M → String
  | .finite q => ratToDecimalString q
  | .posInf => "inf"
  | .negInf => "-inf"
  | .nan => "NaN"

/-! ### Multiplexer (`service/multiplexer.rs`) -/

/-- Errors of the `AppError` taxonomy that the embedded code can surface.
Modelled from the spec: `errors.rs` is not part of the provided sources; the
spec's error taxonomy names `NotFound` for a station id missing from the route
table, which is the only variant the embedded code constructs. -/
inductive AppError where
  | NotFound
  | Upstream (msg : String)
deriving Repr, DecidableEq

/-- The configuration fields `multiplexer.rs` reads: `config.remap` (auto-offset
policy) and the parsed contents of `config.remap_file` (explicit map policy). -/
structure MuxConfig where
  remap : Bool
  channel_remap : Option (List (String × ChannelRedef))

/-- A leaf backend's `station_stream_uri` capability (the `LocastService` side of
the `StationProvider` trait, external to the provided sources; the multiplexer
only stores and invokes it). -/
def Service := String → Except AppError String

/-- The `station_id_service_map`: station id to the owning backend service.
Rust's `HashMap` keeps exactly one entry per key; `routeInsert` below mirrors
`HashMap::insert` (the new binding replaces any previous binding of the key). -/
abbrev RouteMap := List (String × Service)

def routeInsert (m : RouteMap) (k : String) (v : Service) : RouteMap :=
  (k, v) :: m.filter (fun p => p.1 != k)

/-- `HashMap::get`: the binding of the key, if any (bindings are unique). -/
def routeLookup (j : String) : RouteMap → Option Service
  | [] => none
  | p :: rest => if j = p.1 then some p.2 else routeLookup j rest

/-- The key set of the route table. -/
def routeKeys (m : RouteMap) : List String := m.map (fun p => p.1)

/-- The per-station body of `Multiplexer::stations` (lines 71-105 of
`multiplexer.rs`): auto-offset remap when `config.remap` is set, otherwise the
explicit channel-remap map when one was loaded, otherwise pass-through.
`i` is the 0-based ordinal of the backend.  A channel value that parses as
neither `usize` nor `f32` hits `panic!("Could not remap ...")`, modelled as
`Except.error`; so does the `unwrap` of a missing channel. -/
def remapStation (cfg : MuxConfig) (i : Nat) (s : Station) : Except String Station :=
  if cfg.remap then
    match s.channel with
    | none => .error "called unwrap on a None channel"
    | some channel =>
      match parseUsize channel with
      | some c =>
        let newChannel := Nat.repr ((c + 100 * i) % 2 ^ 64)
        .ok { s with channel_remapped := some newChannel,
                     callSign_remapped := some (s.callSign.replace channel newChannel) }
      | none =>
        match parseF32 channel with
        | some c =>
          let newChannel := (c.add (.finite (100 * i : ℚ))).display
          .ok { s with channel_remapped := some newChannel,
                       callSign_remapped := some (s.callSign.replace channel newChannel) }
        | none => .error ("Could not remap " ++ channel)
  else
    match cfg.channel_remap with
    | some m =>
      match List.lookup ("channel." ++ s.id) m with
      | some r =>
        if r.active then
          .ok { s with channel_remapped := some r.remap_channel,
                       callSign_remapped := some (r.remap_channel ++ " " ++ r.remap_call_sign) }
        else .ok s
      | none => .ok s
    | none => .ok s

/-- A refresh environment: each backend service paired with the catalog its own
`stations()` call returns at this refresh (the leaf fetch is external I/O). -/
abbrev SvcEnv := List (Service × List Station)

/-- Inner loop of `Multiplexer::stations` over one backend's catalog: remap each
station, record `station.id -> service` in the route table, append the station. -/
def remapFold (cfg : MuxConfig) (i : Nat) (svc : Service) :
    List Station → List Station → RouteMap → Except String (List Station × RouteMap)
  | [], acc, m => .ok (acc, m)
  | s :: rest, acc, m =>
    match remapStation cfg i s with
    | .error e => .error e
    | .ok s' => remapFold cfg i svc rest (acc ++ [s']) (routeInsert m s'.id svc)

/-- Outer loop of `Multiplexer::stations` over the enumerated backends. -/
def stationsGo (cfg : MuxConfig) (i : Nat) :
    SvcEnv → List Station → RouteMap → Except String (List Station × RouteMap)
  | [], acc, m => .ok (acc, m)
  | (svc, cat) :: rest, acc, m =>
    match remapFold cfg i svc cat [] m with
    | .error e => .error e
    | .ok (merged, m') => stationsGo cfg (i + 1) rest (acc ++ merged) m'

/-- `Multiplexer::stations` (lines 62-119 of `multiplexer.rs`): returns the
merged remapped catalog and the updated route table.  The route table argument
is the table as left by earlier calls (empty at construction); the code only
ever inserts into it. -/
def stationsM (cfg : MuxConfig) (env : SvcEnv) (m0 : RouteMap) :
    Except String (List Station × RouteMap) :=
  stationsGo cfg 0 env [] m0

/-- `Multiplexer::station_stream_uri` (lines 44-59 of `multiplexer.rs`): refresh
the catalog (for its route-table side effect), then look the id up in the route
table; a missing id yields `AppError::NotFound`, a present id delegates to the
recorded backend service. -/
def station_stream_uriM (cfg : MuxConfig) (env : SvcEnv) (m0 : RouteMap) (id : String) :
    Except String (Except AppError String × RouteMap) :=
  match stationsM cfg env m0 with
  | .error e => .error e
  | .ok (_, m') =>
    match routeLookup id m' with
    | none => .ok (.error AppError.NotFound, m')
    | some svc => .ok (svc id, m')

/-! ### Virtual tuner protocol surface (`http/mod.rs`) -/

/-- Observable outcome of a `/watch/...` request: a streamed body produced by
`get_stream`, a temporary redirect, or an error response
(`AppError::error_response()`). -/
inductive WatchResponse where
  | streamBody (url : String)
  | redirect (url : String)
  | errorResponse (e : AppError)
deriving Repr, DecidableEq

/-- The `watch` handler (lines 397-411 of `http/mod.rs`) served by a
multiplexer: resolve the station id, then stream from the resolved url, or
answer with the error's HTTP error response. -/
def watchM (cfg : MuxConfig) (env : SvcEnv) (m0 : RouteMap) (id : String) :
    Except String WatchResponse :=
  match station_stream_uriM cfg env m0 id with
  | .error e => .error e
  | .ok (res, _) =>
    match res with
    | .ok url => .ok (.streamBody url)
    | .error e => .ok (.errorResponse e)

/-- The `watch_m3u` handler (lines 382-395 of `http/mod.rs`) served by a
multiplexer: resolve the station id, then redirect to the resolved url, or
answer with the error's HTTP error response. -/
def watch_m3uM (cfg : MuxConfig) (env : SvcEnv) (m0 : RouteMap) (id : String) :
    Except String WatchResponse :=
  match station_stream_uriM cfg env m0 id with
  | .error e => .error e
  | .ok (res, _) =>
    match res with
    | .ok url => .ok (.redirect url)
    | .error e => .ok (.errorResponse e)

/-- One entry of the `map_json` handler (lines 327-362 of `http/mod.rs`): the
key is `"channel.<id>"`; missing remap fields fall back to the original fields
and a missing `remapped` flag to `false`; the `unwrap`s of a missing channel or
city panic, modelled as `none`. -/
def mapJsonEntry (s : Station) : Option (String × ChannelRemapEntry) :=
  match s.channel, s.city with
  | some ch, some ct =>
    some ("channel." ++ s.id,
      { original_call_sign := s.callSign
        remap_call_sign := s.callSign_remapped.getD s.callSign
        original_channel := ch
        remap_channel := s.channel_remapped.getD ch
        city := ct
        active := s.active
        remapped := s.remapped.getD false })
  | _, _ => none

/-- The `/map.json` body as an association list in catalog order (the Rust code
collects into a `HashMap`, one entry per station key). -/
def map_jsonM (stations : List Station) : Option (List (String × ChannelRemapEntry)) :=
  stations.mapM mapJsonEntry

/-- The DeviceID computation of the `discover` handler (lines 183-204 of
`http/mod.rs`): slice the first 8 characters of the configured uuid (panics,
modelled `none`, when the uuid is shorter), parse them as base 16
(`from_str_radix(..).unwrap()`, panics on failure), and render
`hdhr_checksum(device_id) + device_id` in lowercase hexadecimal.
`crate::utils::hdhr_checksum` is outside the provided sources, so it is kept as
an arbitrary function parameter; `usize` addition wraps. -/
def discoverDeviceID (checksum : Nat → Nat) (uuid : String) : Option String :=
  if uuid.length < 8 then none
  else
    match parseHexUsize (uuid.take 8) with
    | none => none
    | some d => some (String.mk (Nat.toDigits 16 ((checksum d + d) % 2 ^ 64)))

/-! ### Live stream relay engine (`get_stream`, lines 413-555 of `http/mod.rs`) -/

/-- A playlist segment.  The Rust `Segment` implements `PartialEq` by comparing
`url` alone (lines 567-571); that equality is used for the queue membership
test and is modelled by `segContains` below.  The derived `DecidableEq` here is
structural and only used to state and evaluate theorems. -/
structure Segment where
  url : String
  played : Bool
  duration : ℚ
deriving Repr, DecidableEq

/-- Rust `state.segments.contains(&s)` under the URL-only `PartialEq`. -/
def segContains (q : List Segment) (s : Segment) : Bool :=
  q.any (fun t => t.url == s.url)

/-- The mutable per-connection relay state (`StreamState`).  The stream id, the
wall-clock start time and the request handle are not carried: the id is only
logged, and the clock and the re-resolution capability enter through `PullEnv`. -/
structure StreamState where
  segments : List Segment
  url : String
  seconds_served : ℚ
  count_down : ℚ
deriving Repr, DecidableEq

/-- `static COUNT_DOWN: f32 = 9900.0; // 2:45h` -/
def COUNT_DOWN : ℚ := 9900

/-- The state at `get_stream` entry: empty queue, the resolved url,
`seconds_served = 0`, countdown pre-armed at `COUNT_DOWN`. -/
def initialStreamState (url : String) : StreamState :=
  { segments := [], url := url, seconds_served := 0, count_down := COUNT_DOWN }

/-- The external effects of one pull of the unfolded stream. -/
structure PullEnv where
  /-- Outcome of `service.station_stream_uri(id)` when the url is refreshed;
  `none` models `Err`. -/
  resolve : Option String
  /-- The fetched playlist already parsed as a media playlist: segment uri and
  duration in seconds; `none` models a fetch or parse failure. -/
  playlist : Option (List (String × ℚ))
  /-- Whether `Url::parse(state.url)` succeeds. -/
  urlParseOk : Bool
  /-- `Url::join` of the playlist url with a listed segment uri. -/
  join : String → String → String
  /-- `(Utc::now() - state.start_time).num_milliseconds()` at this pull. -/
  elapsedMs : Int
  /-- Segment byte fetch; `none` models a fetch failure. -/
  fetchSegment : String → Option String

/-- Lines 441-462: when the countdown has run out, re-resolve the upstream url;
failure ends the stream, success stores the new url and re-arms the countdown. -/
def refreshPhase (env : PullEnv) (st : StreamState) : Option StreamState :=
  if st.count_down < 0 then
    match env.resolve with
    | some u => some { st with url := u, count_down := COUNT_DOWN }
    | none => none
  else some st

/-- Lines 480-501: resolve each listed segment against the playlist url and
append it unless a queued segment already has that absolute url.  A failing
`Url::parse(state.url)` inside the loop ends the stream. -/
def appendSegments (env : PullEnv) (st : StreamState) :
    List (String × ℚ) → Option StreamState
  | [] => some st
  | (uri, dur) :: rest =>
    if env.urlParseOk then
      let s : Segment := { url := env.join st.url uri, played := false, duration := dur }
      let st' := if segContains st.segments s then st
                 else { st with segments := st.segments ++ [s] }
      appendSegments env st' rest
    else none

/-- Lines 503-506: if the queue holds at least 30 segments, drain the oldest 10. -/
def drainPhase (st : StreamState) : StreamState :=
  if st.segments.length ≥ 30 then { st with segments := st.segments.drop 10 } else st

/-- Lines 509-515 and 545: find the first unplayed segment and mark it played,
returning it together with the updated queue. -/
def markFirstUnplayed : List Segment → Option (Segment × List Segment)
  | [] => none
  | s :: rest =>
    if s.played then
      match markFirstUnplayed rest with
      | some (f, rest') => some (f, s :: rest')
      | none => none
    else some (s, { s with played := true } :: rest)

/-- Lines 517-524: the pacing delay; `0.5` is written `1 / 2`.  The sleep has no
effect on the relay state, so `waitTime` is only documented here. -/
def waitTime (st : StreamState) (firstDuration : ℚ) (elapsedMs : Int) : ℚ :=
  if st.seconds_served > 0 then
    st.seconds_served - (1 / 2 : ℚ) * firstDuration - (elapsedMs : ℚ) / 1000
  else 0

/-- Lines 509-553: serve the first unplayed segment: fetch its bytes (failure
ends the stream), mark it played, account its duration into `seconds_served`
and out of `count_down`, and yield the bytes. -/
def servePhase (env : PullEnv) (st : StreamState) : Option (String × StreamState) :=
  match markFirstUnplayed st.segments with
  | none => none
  | some (f, segs') =>
    match env.fetchSegment f.url with
    | none => none
    | some chunk =>
      some (chunk, { st with segments := segs',
                             seconds_served := st.seconds_served + f.duration,
                             count_down := st.count_down - f.duration })

/-- The body of one pull after the countdown check: playlist fetch/parse
(failure ends the stream), dedup append, conditional drain, serve. -/
def pullBody (env : PullEnv) (st : StreamState) : Option (String × StreamState) :=
  match env.playlist with
  | none => none
  | some pl =>
    match appendSegments env st pl with
    | none => none
    | some st2 => servePhase env (drainPhase st2)

/-- One pull of the `stream::unfold` closure of `get_stream`: `none` is stream
termination, `some (chunk, st)` yields a chunk and the successor state. -/
def pullStep (env : PullEnv) (st : StreamState) : Option (String × StreamState) :=
  match refreshPhase env st with
  | none => none
  | some st1 => pullBody env st1

/-! ### Shared concrete fixtures and projection helpers -/

/-- Configuration with both remap policies off. -/
def plainCfg : MuxConfig := { remap := false, channel_remap := none }

/-- Configuration with the auto-offset remap policy selected. -/
def autoCfg : MuxConfig := { remap := true, channel_remap := none }

/-- Forget the (function-valued) services in a refresh result, keeping the
merged catalog's station ids and the route-table keys. -/
def refreshView (r : Except String (List Station × RouteMap)) :
    Except String (List String × List String) :=
  r.map (fun p => (p.1.map (fun s => s.id), p.2.map (fun q => q.1)))

/-- First component (the resolution outcome) of a `station_stream_uri` result. -/
def resolvedUri (r : Except String (Except AppError String × RouteMap)) :
    Except String (Except AppError String) :=
  r.map (fun p => p.1)

/-- A throwaway station with the given id, channel and call sign, every other
optional field empty. -/
def mkStation (id channel callSign : String) : Station :=
  { id := id, name := "name " ++ id, callSign := callSign, callSign_remapped := none,
    channel := some channel, channel_remapped := none, city := some "City",
    logoUrl := some "http://logo", logo226Url := none, active := true, remapped := none }

/-- The channel of a station survives auto-offset remapping exactly when it
parses as `usize` or as `f32`. -/
def channelParses (s : Station) : Prop :=
  ∃ ch, s.channel = some ch ∧
    ((parseUsize ch).isSome = true ∨ (parseF32 ch).isSome = true)

/-- The urls of the queued segments, in queue order. -/
def queueUrls (segs : List Segment) : List String := segs.map (fun s => s.url)

/-- A backend whose stream resolution always succeeds with a fixed url. -/
def svcU : Service := fun _ => .ok "http://u"

/-- A backend whose stream resolution always fails. -/
def svcBad : Service := fun _ => .error .NotFound

def stX : Station := mkStation "x" "2" "WX"

def stY : Station := mkStation "y" "3" "WY"

/-- A station whose channel parses as neither `usize` nor `f32`. -/
def stBad : Station := mkStation "b" "X" "WB"

/-- A station whose channel is a decimal with a zero fractional part. -/
def stC3 : Station := mkStation "c3" "5.0" "5.0 WXYZ"

/-- An explicit-map entry for station `x`. -/
def redef1 : ChannelRedef :=
  { original_call_sign := "WX", remap_call_sign := "KAAA", original_channel := "2",
    remap_channel := "7", active := true }

/-- A one-segment pull environment. -/
def envA : PullEnv :=
  { resolve := none, playlist := some [("a", 2)], urlParseOk := true,
    join := fun _ rel => rel, elapsedMs := 0, fetchSegment := fun _ => some "B" }

/-- A playlist listing 50 distinct (already absolute) segment uris. -/
def plC4 : List (String × ℚ) := (List.range 50).map (fun n => ("s" ++ Nat.repr n, (2 : ℚ)))

def envC4 : PullEnv :=
  { resolve := none, playlist := some plC4, urlParseOk := true,
    join := fun _ rel => rel, elapsedMs := 0, fetchSegment := fun _ => some "B" }

/-- An environment whose url re-resolution fails but whose playlist and segment
fetches succeed. -/
def envC5 : PullEnv :=
  { resolve := none, playlist := some [("http://s1", 2)], urlParseOk := true,
    join := fun _ rel => rel, elapsedMs := 0, fetchSegment := fun _ => some "BYTES" }

/-- A relay state whose expiry countdown is exactly zero. -/
def stC5 : StreamState :=
  { segments := [], url := "http://pl", seconds_served := 0, count_down := 0 }

/-- A relay state whose expiry countdown is strictly negative. -/
def stW5 : StreamState :=
  { segments := [], url := "http://pl", seconds_served := 0, count_down := -1 }

def envW5 : PullEnv :=
  { resolve := none, playlist := none, urlParseOk := true,
    join := fun _ rel => rel, elapsedMs := 0, fetchSegment := fun _ => none }

/-- An environment whose playlist lists the same uri twice. -/
def envC8 : PullEnv :=
  { resolve := none, playlist := some [("u1", 2), ("u1", 2), ("u2", 3)], urlParseOk := true,
    join := fun _ rel => rel, elapsedMs := 0, fetchSegment := fun _ => some "B" }

/-! ### Route-table lemmas -/

theorem mem_routeKeys_insert (m : RouteMap) (k : String) (v : Service) (j : String) :
    j ∈ routeKeys (routeInsert m k v) ↔ j = k ∨ j ∈ routeKeys m := by
  simp only [routeKeys, routeInsert, List.map_cons, List.mem_cons, List.mem_map,
    List.mem_filter, bne_iff_ne, ne_eq]
  constructor
  · rintro (h | ⟨p, ⟨hp, _⟩, rfl⟩)
    · exact Or.inl h
    · exact Or.inr ⟨p, hp, rfl⟩
  · rintro (rfl | ⟨p, hp, rfl⟩)
    · exact Or.inl rfl
    · by_cases hpk : p.1 = k
      · exact Or.inl hpk
      · exact Or.inr ⟨p, ⟨hp, hpk⟩, rfl⟩

theorem routeKeys_insert_nodup (m : RouteMap) (k : String) (v : Service)
    (h : (routeKeys m).Nodup) : (routeKeys (routeInsert m k v)).Nodup := by
  simp only [routeKeys, routeInsert, List.map_cons, List.nodup_cons]
  refine ⟨?_, ?_⟩
  · simp only [List.mem_map, List.mem_filter, bne_iff_ne, ne_eq, not_exists]
    rintro p ⟨⟨_, hne⟩, h1⟩
    exact hne h1
  · exact h.sublist ((List.filter_sublist m).map (fun p => p.1))

theorem routeLookup_insert_self (m : RouteMap) (k : String) (v : Service) :
    routeLookup k (routeInsert m k v) = some v := by
  simp [routeLookup, routeInsert]

theorem routeLookup_filter_ne (k j : String) (h : j ≠ k) (m : RouteMap) :
    routeLookup j (m.filter (fun p => p.1 != k)) = routeLookup j m := by
  induction m with
  | nil => rfl
  | cons p rest ih =>
    rw [List.filter_cons]
    by_cases hpk : (p.1 != k) = true
    · rw [if_pos hpk]
      simp only [routeLookup]
      by_cases hj : j = p.1
      · rw [if_pos hj, if_pos hj]
      · rw [if_neg hj, if_neg hj, ih]
    · rw [if_neg hpk]
      have hp1 : p.1 = k := by simpa using hpk
      simp only [routeLookup]
      rw [if_neg (fun hj => h (hj.trans hp1))]
      exact ih

theorem routeLookup_insert_ne (m : RouteMap) (k : String) (v : Service) (j : String)
    (h : j ≠ k) : routeLookup j (routeInsert m k v) = routeLookup j m := by
  simp only [routeInsert, routeLookup, if_neg h]
  exact routeLookup_filter_ne k j h m

theorem routeLookup_eq_none_of_not_mem (m : RouteMap) (j : String)
    (h : j ∉ routeKeys m) : routeLookup j m = none := by
  induction m with
  | nil => rfl
  | cons p rest ih =>
    simp only [routeKeys, List.map_cons, List.mem_cons, not_or] at h
    simp only [routeLookup, if_neg h.1]
    exact ih h.2

/-! ### Remap lemmas -/

theorem remapStation_id (cfg : MuxConfig) (i : Nat) (s s' : Station)
    (h : remapStation cfg i s = .ok s') : s'.id = s.id := by
  unfold remapStation at h
  repeat' split at h
  all_goals first
    | (cases h; rfl)
    | exact Except.noConfusion h

theorem remapStation_ok_parses (cfg : MuxConfig) (i : Nat) (s s' : Station)
    (hr : cfg.remap = true) (h : remapStation cfg i s = .ok s') : channelParses s := by
  rcases hch : s.channel with _ | ch
  · rw [remapStation, hr, if_pos rfl, hch] at h
    exact Except.noConfusion h
  · rcases hu : parseUsize ch with _ | c
    · rcases hf : parseF32 ch with _ | c
      · rw [remapStation, hr, if_pos rfl, hch] at h
        simp only [hu, hf] at h
        exact Except.noConfusion h
      · exact ⟨ch, hch, Or.inr (by rw [hf]; rfl)⟩
    · exact ⟨ch, hch, Or.inl (by rw [hu]; rfl)⟩

theorem remapFold_ok (cfg : MuxConfig) (i : Nat) (svc : Service) (cat : List Station) :
    ∀ (acc : List Station) (m : RouteMap) (out : List Station × RouteMap),
    remapFold cfg i svc cat acc m = .ok out →
    out.1.map Station.id = acc.map Station.id ++ cat.map Station.id
    ∧ (∀ j, j ∈ routeKeys out.2 ↔ j ∈ cat.map Station.id ∨ j ∈ routeKeys m)
    ∧ ((routeKeys m).Nodup → (routeKeys out.2).Nodup)
    ∧ (∀ j, j ∈ cat.map Station.id → routeLookup j out.2 = some svc)
    ∧ (∀ j, j ∉ cat.map Station.id → routeLookup j out.2 = routeLookup j m) := by
  induction cat with
  | nil =>
    intro acc m out h
    simp only [remapFold] at h
    cases h
    exact ⟨by simp, by simp, fun hn => hn, by simp, fun j _ => rfl⟩
  | cons s rest ih =>
    intro acc m out h
    simp only [remapFold] at h
    rcases hs : remapStation cfg i s with e | s'
    · rw [hs] at h; exact Except.noConfusion h
    · rw [hs] at h
      obtain ⟨h1, h2, h3, h4, h5⟩ := ih _ _ _ h
      have hid := remapStation_id cfg i s s' hs
      refine ⟨?_, ?_, ?_, ?_, ?_⟩
      · rw [h1]; simp [hid]
      · intro j
        rw [h2 j, mem_routeKeys_insert, hid]
        simp only [List.map_cons, List.mem_cons]
        tauto
      · intro hn
        exact h3 (routeKeys_insert_nodup m s'.id svc hn)
      · intro j hj
        simp only [List.map_cons, List.mem_cons] at hj
        by_cases hjr : j ∈ rest.map Station.id
        · exact h4 j hjr
        · rcases hj with hj | hj
          · rw [h5 j hjr, hj, ← hid]
            exact routeLookup_insert_self m s'.id svc
          · exact absurd hj hjr
      · intro j hj
        simp only [List.map_cons, List.mem_cons, not_or] at hj
        rw [h5 j hj.2, routeLookup_insert_ne m s'.id svc j (by rw [hid]; exact hj.1)]

theorem remapFold_ok_parses (cfg : MuxConfig) (i : Nat) (svc : Service)
    (hr : cfg.remap = true) (cat : List Station) :
    ∀ (acc : List Station) (m : RouteMap) (out : List Station × RouteMap),
    remapFold cfg i svc cat acc m = .ok out → ∀ s ∈ cat, channelParses s := by
  induction cat with
  | nil => intro _ _ _ _ s hs; exact absurd hs (List.not_mem_nil s)
  | cons s rest ih =>
    intro acc m out h t ht
    simp only [remapFold] at h
    rcases hs : remapStation cfg i s with e | s'
    · rw [hs] at h; exact Except.noConfusion h
    · rw [hs] at h
      rcases List.mem_cons.mp ht with rfl | ht'
      · exact remapStation_ok_parses cfg i t s' hr hs
      · exact ih _ _ _ h t ht'

theorem stationsGo_ok (cfg : MuxConfig) (env : SvcEnv) :
    ∀ (i : Nat) (acc : List Station) (m : RouteMap) (out : List Station × RouteMap),
    stationsGo cfg i env acc m = .ok out →
    (∀ j, j ∈ out.1.map Station.id ↔
       j ∈ acc.map Station.id ∨ ∃ p ∈ env, j ∈ p.2.map Station.id)
    ∧ (∀ j, j ∈ routeKeys out.2 ↔
       (∃ p ∈ env, j ∈ p.2.map Station.id) ∨ j ∈ routeKeys m)
    ∧ ((routeKeys m).Nodup → (routeKeys out.2).Nodup)
    ∧ (∀ j, (∃ p ∈ env, j ∈ p.2.map Station.id) →
       ∃ p ∈ env, j ∈ p.2.map Station.id ∧ routeLookup j out.2 = some p.1)
    ∧ (∀ j, (∀ p ∈ env, j ∉ p.2.map Station.id) →
       routeLookup j out.2 = routeLookup j m) := by
  induction env with
  | nil =>
    intro i acc m out h
    simp only [stationsGo] at h
    cases h
    refine ⟨by simp, by simp, fun hn => hn, by simp, fun j _ => rfl⟩
  | cons p rest ih =>
    intro i acc m out h
    rcases p with ⟨svc, cat⟩
    simp only [stationsGo] at h
    rcases hf : remapFold cfg i svc cat [] m with e | mm
    · rw [hf] at h; exact Except.noConfusion h
    · rw [hf] at h
      rcases mm with ⟨merged, m1⟩
      obtain ⟨f1, f2, f3, f4, f5⟩ := remapFold_ok cfg i svc cat [] m (merged, m1) hf
      obtain ⟨g1, g2, g3, g4, g5⟩ := ih (i + 1) (acc ++ merged) m1 out h
      simp only [List.map_nil, List.nil_append] at f1
      refine ⟨?_, ?_, ?_, ?_, ?_⟩
      · intro j
        rw [g1 j]
        simp only [List.map_append, List.mem_append, f1, List.mem_cons]
        constructor
        · rintro ((hj | hj) | ⟨q, hq, hjq⟩)
          · exact Or.inl hj
          · exact Or.inr ⟨(svc, cat), Or.inl rfl, hj⟩
          · exact Or.inr ⟨q, Or.inr hq, hjq⟩
        · rintro (hj | ⟨q, (rfl | hq), hjq⟩)
          · exact Or.inl (Or.inl hj)
          · exact Or.inl (Or.inr hjq)
          · exact Or.inr ⟨q, hq, hjq⟩
      · intro j
        rw [g2 j, f2 j]
        simp only [List.mem_cons]
        constructor
        · rintro (⟨q, hq, hjq⟩ | hj | hj)
          · exact Or.inl ⟨q, Or.inr hq, hjq⟩
          · exact Or.inl ⟨(svc, cat), Or.inl rfl, hj⟩
          · exact Or.inr hj
        · rintro (⟨q, (rfl | hq), hjq⟩ | hj)
          · exact Or.inr (Or.inl hjq)
          · exact Or.inl ⟨q, hq, hjq⟩
          · exact Or.inr (Or.inr hj)
      · intro hn
        exact g3 (f3 hn)
      · intro j hj
        by_cases hjr : ∃ q ∈ rest, j ∈ q.2.map Station.id
        · obtain ⟨q, hq, hjq, hl⟩ := g4 j hjr
          exact ⟨q, List.mem_cons_of_mem _ hq, hjq, hl⟩
        · rcases hj with ⟨q, hq, hjq⟩
          rcases List.mem_cons.mp hq with rfl | hq'
          · refine ⟨(svc, cat), List.mem_cons_self _ _, hjq, ?_⟩
            rw [g5 j (fun r hr hjr' => hjr ⟨r, hr, hjr'⟩)]
            exact f4 j hjq
          · exact absurd ⟨q, hq', hjq⟩ hjr
      · intro j hj
        rw [g5 j (fun q hq => hj q (List.mem_cons_of_mem _ hq)),
          f5 j (hj (svc, cat) (List.mem_cons_self _ _))]

theorem stationsGo_ok_parses (cfg : MuxConfig) (hr : cfg.remap = true) (env : SvcEnv) :
    ∀ (i : Nat) (acc : List Station) (m : RouteMap) (out : List Station × RouteMap),
    stationsGo cfg i env acc m = .ok out → ∀ p ∈ env, ∀ s ∈ p.2, channelParses s := by
  induction env with
  | nil => intro _ _ _ _ _ p hp; exact absurd hp (List.not_mem_nil p)
  | cons p rest ih =>
    intro i acc m out h q hq
    rcases p with ⟨svc, cat⟩
    simp only [stationsGo] at h
    rcases hf : remapFold cfg i svc cat [] m with e | mm
    · rw [hf] at h; exact Except.noConfusion h
    · rw [hf] at h
      rcases mm with ⟨merged, m1⟩
      rcases List.mem_cons.mp hq with rfl | hq'
      · exact remapFold_ok_parses cfg i svc hr cat [] m (merged, m1) hf
      · exact ih (i + 1) (acc ++ merged) m1 out h q hq'

/-! ### Relay-engine lemmas -/

theorem refreshPhase_some (env : PullEnv) (st st1 : StreamState)
    (h : refreshPhase env st = some st1) :
    st1.segments = st.segments ∧ st1.seconds_served = st.seconds_served
    ∧ st1.count_down = (if st.count_down < 0 then COUNT_DOWN else st.count_down) := by
  unfold refreshPhase at h
  by_cases hc : st.count_down < 0
  · rw [if_pos hc] at h
    rcases hr : env.resolve with _ | u
    · rw [hr] at h; exact Option.noConfusion h
    · rw [hr] at h
      simp only [Option.some.injEq] at h
      subst h
      exact ⟨rfl, rfl, by rw [if_pos hc]⟩
  · rw [if_neg hc] at h
    simp only [Option.some.injEq] at h
    subst h
    exact ⟨rfl, rfl, by rw [if_neg hc]⟩

theorem appendSegments_fields (env : PullEnv) (pl : List (String × ℚ)) :
    ∀ (st st' : StreamState), appendSegments env st pl = some st' →
    st'.url = st.url ∧ st'.seconds_served = st.seconds_served
    ∧ st'.count_down = st.count_down
    ∧ st'.segments.length ≤ st.segments.length + pl.length := by
  induction pl with
  | nil =>
    intro st st' h
    simp only [appendSegments, Option.some.injEq] at h
    subst h
    exact ⟨rfl, rfl, rfl, Nat.le_add_right _ _⟩
  | cons e rest ih =>
    intro st st' h
    rcases e with ⟨uri, dur⟩
    simp only [appendSegments] at h
    by_cases hok : env.urlParseOk = true
    · rw [if_pos hok] at h
      by_cases hc :
          segContains st.segments
            { url := env.join st.url uri, played := false, duration := dur } = true
      · rw [if_pos hc] at h
        obtain ⟨h1, h2, h3, h4⟩ := ih _ _ h
        exact ⟨h1, h2, h3, by simp only [List.length_cons]; omega⟩
      · rw [if_neg hc] at h
        obtain ⟨h1, h2, h3, h4⟩ := ih _ _ h
        simp only [List.length_append, List.length_cons, List.length_nil] at h4
        exact ⟨h1, h2, h3, by simp only [List.length_cons]; omega⟩
    · rw [if_neg hok] at h
      exact Option.noConfusion h

theorem appendSegments_nodup (env : PullEnv) (pl : List (String × ℚ)) :
    ∀ (st st' : StreamState), appendSegments env st pl = some st' →
    (queueUrls st.segments).Nodup → (queueUrls st'.segments).Nodup := by
  induction pl with
  | nil =>
    intro st st' h hn
    simp only [appendSegments, Option.some.injEq] at h
    subst h
    exact hn
  | cons e rest ih =>
    intro st st' h hn
    rcases e with ⟨uri, dur⟩
    simp only [appendSegments] at h
    by_cases hok : env.urlParseOk = true
    · rw [if_pos hok] at h
      by_cases hc :
          segContains st.segments
            { url := env.join st.url uri, played := false, duration := dur } = true
      · rw [if_pos hc] at h
        exact ih _ _ h hn
      · rw [if_neg hc] at h
        refine ih _ _ h ?_
        simp only [queueUrls, List.map_append, List.map_cons, List.map_nil]
        rw [List.nodup_append]
        refine ⟨hn, List.nodup_singleton _, ?_⟩
        intro a ha hb
        simp only [List.mem_singleton] at hb
        subst hb
        apply hc
        simp only [segContains, List.any_eq_true]
        simp only [queueUrls, List.mem_map] at ha
        obtain ⟨t, ht, hta⟩ := ha
        exact ⟨t, ht, by simp [hta]⟩
    · rw [if_neg hok] at h
      exact Option.noConfusion h

theorem drainPhase_count_down (st : StreamState) :
    (drainPhase st).count_down = st.count_down := by
  unfold drainPhase; split <;> rfl

theorem drainPhase_seconds (st : StreamState) :
    (drainPhase st).seconds_served = st.seconds_served := by
  unfold drainPhase; split <;> rfl

theorem drainPhase_nodup (st : StreamState) (h : (queueUrls st.segments).Nodup) :
    (queueUrls (drainPhase st).segments).Nodup := by
  unfold drainPhase; split
  · show ((st.segments.drop 10).map (fun s => s.url)).Nodup
    exact List.Nodup.sublist ((List.drop_sublist 10 st.segments).map (fun s => s.url)) h
  · exact h

theorem markFirstUnplayed_urls (segs : List Segment) :
    ∀ f segs', markFirstUnplayed segs = some (f, segs') → queueUrls segs' = queueUrls segs := by
  induction segs with
  | nil => intro f segs' h; exact Option.noConfusion h
  | cons s rest ih =>
    intro f segs' h
    simp only [markFirstUnplayed] at h
    by_cases hp : s.played = true
    · rw [if_pos hp] at h
      rcases hm : markFirstUnplayed rest with _ | fr
      · rw [hm] at h; exact Option.noConfusion h
      · rcases fr with ⟨g, rest'⟩
        rw [hm] at h
        simp only [Option.some.injEq, Prod.mk.injEq] at h
        obtain ⟨rfl, rfl⟩ := h
        simp only [queueUrls, List.map_cons]
        rw [show (rest'.map fun s => s.url) = queueUrls rest' from rfl, ih _ _ hm]
        rfl
    · rw [if_neg hp] at h
      simp only [Option.some.injEq, Prod.mk.injEq] at h
      obtain ⟨rfl, rfl⟩ := h
      simp [queueUrls]

theorem servePhase_some (env : PullEnv) (st : StreamState) (chunk : String)
    (st' : StreamState) (h : servePhase env st = some (chunk, st')) :
    ∃ f segs', markFirstUnplayed st.segments = some (f, segs')
      ∧ env.fetchSegment f.url = some chunk
      ∧ st'.segments = segs'
      ∧ st'.url = st.url
      ∧ st'.seconds_served = st.seconds_served + f.duration
      ∧ st'.count_down = st.count_down - f.duration := by
  unfold servePhase at h
  split at h
  · exact Option.noConfusion h
  · rename_i f segs' hm
    split at h
    · exact Option.noConfusion h
    · rename_i c hf
      simp only [Option.some.injEq, Prod.mk.injEq] at h
      obtain ⟨rfl, rfl⟩ := h
      exact ⟨f, segs', hm, hf, rfl, rfl, rfl, rfl⟩

theorem pullStep_some (env : PullEnv) (st : StreamState) (chunk : String)
    (st' : StreamState) (h : pullStep env st = some (chunk, st')) :
    ∃ st1 pl st2, refreshPhase env st = some st1 ∧ env.playlist = some pl
      ∧ appendSegments env st1 pl = some st2
      ∧ servePhase env (drainPhase st2) = some (chunk, st') := by
  unfold pullStep at h
  split at h
  · exact Option.noConfusion h
  · rename_i st1 hr
    unfold pullBody at h
    split at h
    · exact Option.noConfusion h
    · rename_i pl hpl
      split at h
      · exact Option.noConfusion h
      · rename_i st2 ha
        exact ⟨st1, pl, st2, hr, hpl, ha, h⟩

/-! ### Decimal-rendering lemmas -/

theorem findPow10Aux_base (q : ℚ) (k fuel : Nat) (h : (q * (10 : ℚ) ^ k).den = 1) :
    findPow10Aux q k (fuel + 1) = some k := by
  unfold findPow10Aux
  rw [if_pos h]

theorem findPow10_integral (q : ℚ) (hden : q.den = 1) : findPow10 q = some 0 :=
  findPow10Aux_base q 0 64 (by simpa using hden)

/-- An integral rational is rendered with no decimal point (plain decimal
digits), matching Rust's `Display` of an integral float. -/
theorem ratToDecimalString_integral (q : ℚ) (hden : q.den = 1) (hq : 0 ≤ q) :
    ratToDecimalString q = Nat.repr q.num.toNat := by
  unfold ratToDecimalString
  rw [if_neg (not_lt.mpr hq)]
  unfold ratToDecimalStringNonneg
  rw [findPow10_integral q hden]

/-- The float branch of the auto-offset remap, in closed form. -/
theorem remapStation_f32_eq (cfg : MuxConfig) (hr : cfg.remap = true) (i : Nat)
    (s : Station) (ch : String) (hch : s.channel = some ch)
    (hu : parseUsize ch = none) (q : ℚ) (hf : parseF32 ch = some (.finite q)) :
    remapStation cfg i s = .ok { s with
      channel_remapped := some (ratToDecimalString (q + 100 * (i : ℚ))),
      callSign_remapped :=
        some (s.callSign.replace ch (ratToDecimalString (q + 100 * (i : ℚ)))) } := by
  simp only [remapStation, hr, if_true, hch, hu, hf, F32M.add, F32M.display]

/-! ### Claim theorems -/

/-- C1 (amended): after a successful refresh, every id present in the merged
catalog is routed: the table binds it to a backend whose catalog in that very
refresh produced a station with that id, and `station_stream_uri` delegates to
that backend's resolver.  An id whose route-table lookup fails yields
`NotFound`, and both watch endpoints then answer with an error response.  The
claim's stronger reading — NotFound for every id absent from the catalog — is
false (see the counterexample): because the table is never cleared, an id is
guaranteed unrouted only when it is absent from the current catalog and from
the table accumulated by earlier refreshes. -/
theorem station_routing_and_notfound (cfg : MuxConfig) (env : SvcEnv) (m0 : RouteMap)
    (id : String) (sts : List Station) (m' : RouteMap)
    (hok : stationsM cfg env m0 = .ok (sts, m')) :
    ((∃ s ∈ sts, s.id = id) →
      ∃ p ∈ env, (∃ s ∈ p.2, s.id = id)
        ∧ routeLookup id m' = some p.1
        ∧ station_stream_uriM cfg env m0 id = .ok (p.1 id, m'))
    ∧ (routeLookup id m' = none →
      station_stream_uriM cfg env m0 id = .ok (.error AppError.NotFound, m')
      ∧ watchM cfg env m0 id = .ok (.errorResponse AppError.NotFound)
      ∧ watch_m3uM cfg env m0 id = .ok (.errorResponse AppError.NotFound))
    ∧ (id ∉ routeKeys m0 → (∀ p ∈ env, ∀ s ∈ p.2, s.id ≠ id) →
      routeLookup id m' = none) := by
  obtain ⟨g1, g2, g3, g4, g5⟩ := stationsGo_ok cfg env 0 [] m0 (sts, m') hok
  refine ⟨?_, ?_, ?_⟩
  · rintro ⟨s, hs, hsid⟩
    have hmem : id ∈ sts.map Station.id := List.mem_map.mpr ⟨s, hs, hsid⟩
    rcases (g1 id).mp hmem with hl | hr
    · simp at hl
    · obtain ⟨p, hp, hmem2, hlook⟩ := g4 id hr
      refine ⟨p, hp, ?_, hlook, ?_⟩
      · obtain ⟨t, ht, htid⟩ := List.mem_map.mp hmem2
        exact ⟨t, ht, htid⟩
      · simp only [station_stream_uriM, hok, hlook]
  · intro hnone
    refine ⟨?_, ?_, ?_⟩
    · simp only [station_stream_uriM, hok, hnone]
    · simp only [watchM, station_stream_uriM, hok, hnone]
    · simp only [watch_m3uM, station_stream_uriM, hok, hnone]
  · intro h0 hno
    rw [g5 id ?_, routeLookup_eq_none_of_not_mem m0 id h0]
    intro p hp hmem
    obtain ⟨t, ht, htid⟩ := List.mem_map.mp hmem
    exact hno p hp t ht htid

/-- C1 witness: a single backend producing station `x`; resolution of `x`
delegates to that backend's resolver. -/
theorem station_routing_and_notfound_witness :
    station_stream_uriM plainCfg [(svcU, [stX])] [] "x" = .ok (.ok "http://u", [("x", svcU)]) := by
  obtain ⟨p, hp, -, -, huri⟩ :=
    (station_routing_and_notfound plainCfg [(svcU, [stX])] [] "x" [stX] [("x", svcU)] rfl).1
      ⟨stX, List.mem_singleton.mpr rfl, rfl⟩
  rw [List.mem_singleton.mp hp] at huri
  exact huri

/-- C1 counterexample: a first refresh records station `x`; on the next refresh
the backend's catalog is empty, so `x` is absent from the most recent merged
catalog, yet `station_stream_uri "x"` still delegates to the stale route (the
table is never cleared) and `/watch/x` streams and `/watch/x.m3u` redirects
instead of returning an error response. -/
theorem stale_route_counterexample :
    stationsM plainCfg [(svcU, [stX])] [] = .ok ([stX], [("x", svcU)])
    ∧ refreshView (stationsM plainCfg [(svcU, [])] [("x", svcU)]) = .ok ([], ["x"])
    ∧ resolvedUri (station_stream_uriM plainCfg [(svcU, [])] [("x", svcU)] "x")
        = .ok (.ok "http://u")
    ∧ watchM plainCfg [(svcU, [])] [("x", svcU)] "x" = .ok (.streamBody "http://u")
    ∧ watch_m3uM plainCfg [(svcU, [])] [("x", svcU)] "x" = .ok (.redirect "http://u") :=
  ⟨rfl, rfl, rfl, rfl, rfl⟩

/-- C2 (amended): after a successful refresh the route table's key set is the
union of the merged catalog's station ids and the keys already present before
the call — the table is merged incrementally (`HashMap::insert` only), not
cleared and rebuilt, so ids of removed stations persist; each key still has
exactly one entry (key uniqueness is preserved). -/
theorem route_table_incremental_merge (cfg : MuxConfig) (env : SvcEnv) (m0 : RouteMap)
    (sts : List Station) (m' : RouteMap) (hok : stationsM cfg env m0 = .ok (sts, m')) :
    (∀ j, j ∈ routeKeys m' ↔ j ∈ sts.map Station.id ∨ j ∈ routeKeys m0)
    ∧ ((routeKeys m0).Nodup → (routeKeys m').Nodup) := by
  obtain ⟨g1, g2, g3, g4, g5⟩ := stationsGo_ok cfg env 0 [] m0 (sts, m') hok
  have hsts : ∀ j, j ∈ sts.map Station.id ↔ ∃ p ∈ env, j ∈ p.2.map Station.id := by
    intro j
    rw [g1 j]
    simp
  refine ⟨?_, g3⟩
  intro j
  rw [g2 j, ← hsts j]

/-- C2 witness: a refresh over a table already holding key `x` keeps `x`. -/
theorem route_table_incremental_merge_witness :
    "x" ∈ routeKeys [("y", svcU), ("x", svcU)] := by
  have h :=
    (route_table_incremental_merge plainCfg [(svcU, [stY])] [("x", svcU)] [stY]
      [("y", svcU), ("x", svcU)] rfl).1 "x"
  exact h.mpr (Or.inr (by decide))

/-- C2 counterexample: key `x` enters the table in a first refresh; a later
refresh whose merged catalog is `[y]` leaves the table with keys `[y, x]`, so
the table does not contain entries exactly for the ids of the catalog that the
call returned. -/
theorem route_table_retains_removed_id :
    refreshView (stationsM plainCfg [(svcU, [stX])] []) = .ok (["x"], ["x"])
    ∧ refreshView (stationsM plainCfg [(svcU, [stY])] [("x", svcU)]) = .ok (["y"], ["y", "x"])
    ∧ "x" ∉ (["y"] : List String) :=
  ⟨rfl, rfl, by decide⟩

/-- C9 (amended): with auto-offset remap enabled, a successful catalog refresh
certifies that every station of every backend had a parseable channel;
contrapositively, one unparseable channel anywhere makes the whole refresh call
fail (the `panic!` aborts the entire merged refresh, not just the offending
backend's part). -/
theorem remap_failure_aborts_whole_refresh (cfg : MuxConfig) (hr : cfg.remap = true)
    (env : SvcEnv) (m0 : RouteMap) (out : List Station × RouteMap)
    (hok : stationsM cfg env m0 = .ok out) :
    ∀ p ∈ env, ∀ s ∈ p.2, channelParses s :=
  stationsGo_ok_parses cfg hr env 0 [] m0 out hok

/-- C9 witness: a successful auto-remap refresh over station `x` certifies its
channel parses. -/
theorem remap_failure_aborts_whole_refresh_witness : channelParses stX := by
  refine remap_failure_aborts_whole_refresh autoCfg rfl [(svcU, [stX])] [] _ rfl
    (svcU, [stX]) (List.mem_singleton.mpr rfl) stX (List.mem_singleton.mpr rfl)

/-- C9 counterexample: backend 0's catalog is fine, backend 1 has channel "X";
the whole refresh returns the panic error — backend 0's station is lost too —
while backend 0 alone refreshes fine.  So the failure does not terminate the
refresh "for that backend only". -/
theorem remap_failure_loses_good_backend_cex :
    stationsM autoCfg [(svcU, [stX]), (svcBad, [stBad])] [] = .error "Could not remap X"
    ∧ (stationsM autoCfg [(svcU, [stX])] []).isOk = true :=
  ⟨rfl, rfl⟩

/-- C3 (amended): with auto-offset remap on, a channel parsing as `usize c` is
remapped to the decimal rendering of `c + 100·i` (no `usize` overflow assumed)
and the call sign has every occurrence of the original channel substring
replaced by the new channel; a channel parsing only as a finite float `q` is
remapped to Rust's float `Display` of `q + 100·i`, which renders an integral
value with no fractional part (third conjunct) — so the decimal formatting
family of the original channel is not always preserved (see the
counterexample). -/
theorem auto_offset_remap_spec (cfg : MuxConfig) (hr : cfg.remap = true) (i : Nat)
    (s : Station) (ch : String) (hch : s.channel = some ch) :
    (∀ c, parseUsize ch = some c → c + 100 * i < 2 ^ 64 →
      remapStation cfg i s = .ok { s with
        channel_remapped := some (Nat.repr (c + 100 * i)),
        callSign_remapped := some (s.callSign.replace ch (Nat.repr (c + 100 * i))) })
    ∧ (∀ q : ℚ, parseUsize ch = none → parseF32 ch = some (.finite q) →
      remapStation cfg i s = .ok { s with
        channel_remapped := some (ratToDecimalString (q + 100 * (i : ℚ))),
        callSign_remapped :=
          some (s.callSign.replace ch (ratToDecimalString (q + 100 * (i : ℚ)))) })
    ∧ (∀ q : ℚ, q.den = 1 → 0 ≤ q → ratToDecimalString q = Nat.repr q.num.toNat) := by
  refine ⟨?_, ?_, fun q hd h0 => ratToDecimalString_integral q hd h0⟩
  · intro c hc hlt
    simp only [remapStation, hr, if_true, hch, hc]
    rw [Nat.mod_eq_of_lt hlt]
  · intro q hu hf
    simp only [remapStation, hr, if_true, hch, hu, hf, F32M.add, F32M.display]

/-- C3 witness: ordinal 1, integer channel "5" remaps to "105" and the channel
substring in the call sign is rewritten. -/
theorem auto_offset_remap_spec_witness :
    remapStation autoCfg 1 (mkStation "id1" "5" "5 WAAA") = .ok
      { mkStation "id1" "5" "5 WAAA" with
        channel_remapped := some (Nat.repr (5 + 100 * 1)),
        callSign_remapped :=
          some ((mkStation "id1" "5" "5 WAAA").callSign.replace "5" (Nat.repr (5 + 100 * 1))) } :=
  (auto_offset_remap_spec autoCfg rfl 1 (mkStation "id1" "5" "5 WAAA") "5" rfl).1
    5 (by decide) (by decide)

set_option maxRecDepth 100000 in
/-- C3 counterexample: channel "5.0" at ordinal 0 parses only as a float; the
code renders the remapped channel as "5" — integer formatting, not the decimal
formatting family of "5.0" (the claim would require "5.0"). -/
theorem auto_offset_decimal_formatting_cex :
    (remapStation autoCfg 0 stC3).map (fun t => t.channel_remapped) = .ok (some "5")
    ∧ (some "5" : Option String) ≠ some "5.0" := by
  refine ⟨?_, by decide⟩
  have hpf : parseF32 "5.0" = some (.finite 5) := by
    rw [show parseF32 "5.0" = some (.finite ((decListVal ['5'] : ℚ)
        + (decListVal ['0'] : ℚ) / (10 : ℚ) ^ ((['0'] : List Char)).length)) from rfl]
    norm_num [show decListVal ['5'] = 5 from rfl, show decListVal ['0'] = 0 from rfl,
      show ((['0'] : List Char)).length = 1 from rfl]
  rw [remapStation_f32_eq autoCfg rfl 0 stC3 "5.0" rfl rfl 5 hpf]
  have hds : ratToDecimalString ((5 : ℚ) + 100 * ((0 : Nat) : ℚ)) = "5" := by
    rw [show ((5 : ℚ) + 100 * ((0 : Nat) : ℚ)) = 5 by norm_num,
      ratToDecimalString_integral 5 (by norm_num) (by norm_num)]
    rfl
  simp only [Except.map, hds]

/-- C4 (amended): a pull whose dedup append contributes at most 10 new
segments to a queue of at most 29 — however long the fetched playlist is, and
however many already-queued segments it re-lists — leaves, after the
conditional drain, at most 29 segments, in particular at most 39 as the claim
states.  The contribution bound is stated on the queue growth itself, so the
normal live case (a long playlist that mostly re-lists known segments) is
covered.  Without any bound on the contribution the claim is false (see the
counterexample): the drain evicts only 10 once, however large the append. -/
theorem segment_queue_bound (env : PullEnv) (pl : List (String × ℚ)) (st st' : StreamState)
    (hq : st.segments.length ≤ 29)
    (happ : appendSegments env st pl = some st')
    (hnew : st'.segments.length ≤ st.segments.length + 10) :
    (drainPhase st').segments.length ≤ 39 ∧ (drainPhase st').segments.length ≤ 29 := by
  unfold drainPhase
  split
  · rename_i hge
    show (st'.segments.drop 10).length ≤ 39 ∧ (st'.segments.drop 10).length ≤ 29
    simp only [List.length_drop]
    omega
  · rename_i hlt
    constructor <;> omega

set_option maxRecDepth 100000 in
/-- C4 witness: one new segment on an empty queue stays within the bound. -/
theorem segment_queue_bound_witness :
    (drainPhase
      { segments := [{ url := "a", played := false, duration := 2 }],
        url := "http://pl", seconds_served := 0, count_down := COUNT_DOWN }).segments.length
      ≤ 39 :=
  (segment_queue_bound envA [("a", 2)] (initialStreamState "http://pl")
    { segments := [{ url := "a", played := false, duration := 2 }],
      url := "http://pl", seconds_served := 0, count_down := COUNT_DOWN }
    (by decide) rfl (by decide)).1

set_option maxRecDepth 100000 in
/-- C4 counterexample: a playlist listing 50 distinct fresh segments on an
empty queue yields, after the conditional drain, a queue of 40 > 39 segments. -/
theorem segment_queue_overflow_cex :
    (appendSegments envC4 (initialStreamState "http://pl") plC4).map
      (fun st => (drainPhase st).segments.length) = some 40
    ∧ 39 < 40 :=
  ⟨rfl, by decide⟩

/-- C5 (amended): the relay refreshes the upstream url exactly when the
countdown is strictly negative (not ≤ 0: at exactly 0 no refresh happens, see
the counterexample); on refresh failure the stream terminates, on success the
stored url is replaced and the countdown reset to `COUNT_DOWN = 9900` seconds;
and every yielded chunk subtracts the played segment's duration from the
(possibly refreshed) countdown. -/
theorem relay_url_refresh_spec (env : PullEnv) (st : StreamState) :
    COUNT_DOWN = 9900
    ∧ (st.count_down < 0 → env.resolve = none → pullStep env st = none)
    ∧ (∀ u, st.count_down < 0 → env.resolve = some u →
        pullStep env st = pullBody env { st with url := u, count_down := COUNT_DOWN })
    ∧ (0 ≤ st.count_down → pullStep env st = pullBody env st)
    ∧ (∀ chunk st', pullStep env st = some (chunk, st') →
        ∃ st1 pl st2 f,
          refreshPhase env st = some st1 ∧ env.playlist = some pl
          ∧ appendSegments env st1 pl = some st2
          ∧ markFirstUnplayed (drainPhase st2).segments = some (f, st'.segments)
          ∧ env.fetchSegment f.url = some chunk
          ∧ st'.count_down = (if st.count_down < 0 then COUNT_DOWN else st.count_down)
              - f.duration
          ∧ st'.seconds_served = st.seconds_served + f.duration) := by
  refine ⟨rfl, ?_, ?_, ?_, ?_⟩
  · intro hc hres
    have hnone : refreshPhase env st = none := by rw [refreshPhase, if_pos hc, hres]
    rw [pullStep, hnone]
  · intro u hc hres
    have hsome : refreshPhase env st = some { st with url := u, count_down := COUNT_DOWN } := by
      rw [refreshPhase, if_pos hc, hres]
    rw [pullStep, hsome]
  · intro hge
    have hsome : refreshPhase env st = some st := by
      rw [refreshPhase, if_neg (not_lt.mpr hge)]
    rw [pullStep, hsome]
  · intro chunk st' h
    obtain ⟨st1, pl, st2, hr, hpl, ha, hs⟩ := pullStep_some env st chunk st' h
    obtain ⟨f, segs', hm, hf, hsegs, -, hsec, hcd⟩ :=
      servePhase_some env (drainPhase st2) chunk st' hs
    obtain ⟨-, hsec1, hcd1⟩ := refreshPhase_some env st st1 hr
    obtain ⟨-, hsec2, hcd2, -⟩ := appendSegments_fields env pl st1 st2 ha
    refine ⟨st1, pl, st2, f, hr, hpl, ha, ?_, hf, ?_, ?_⟩
    · rw [hsegs]
      exact hm
    · rw [hcd, drainPhase_count_down, hcd2, hcd1]
    · rw [hsec, drainPhase_seconds, hsec2, hsec1]

/-- C5 witness: a strictly negative countdown with a failing resolver ends the
stream. -/
theorem relay_url_refresh_spec_witness : pullStep envW5 stW5 = none :=
  (relay_url_refresh_spec envW5 stW5).2.1 (by decide) rfl

set_option maxRecDepth 100000 in
/-- C5 counterexample: at countdown exactly 0 (which is ≤ 0) the relay does not
attempt a refresh: with a failing resolver it still serves a chunk, the url is
unchanged, and the countdown becomes 0 − 2, not 9900 − 2. -/
theorem relay_refresh_threshold_cex :
    stC5.count_down = 0
    ∧ envC5.resolve = none
    ∧ pullStep envC5 stC5 = some ("BYTES",
        { segments := [{ url := "http://s1", played := true, duration := 2 }],
          url := "http://pl", seconds_served := 2, count_down := -2 }) := by
  refine ⟨rfl, rfl, ?_⟩
  have h0 : pullStep envC5 stC5 = some ("BYTES",
      { segments := [{ url := "http://s1", played := true, duration := 2 }],
        url := "http://pl", seconds_served := 0 + 2, count_down := 0 - 2 }) := rfl
  rw [h0]
  norm_num

/-- C6: under the explicit-map policy (auto remap off, a map loaded), a station
whose key has an active entry gets exactly the entry's remap channel and the
synthesized call sign; a station with an inactive entry or no entry at all is
returned completely unmodified. -/
theorem explicit_map_remap_spec (m : List (String × ChannelRedef)) (i : Nat) (s : Station) :
    (∀ r, List.lookup ("channel." ++ s.id) m = some r → r.active = true →
      remapStation { remap := false, channel_remap := some m } i s = .ok { s with
        channel_remapped := some r.remap_channel,
        callSign_remapped := some (r.remap_channel ++ " " ++ r.remap_call_sign) })
    ∧ (∀ r, List.lookup ("channel." ++ s.id) m = some r → r.active = false →
      remapStation { remap := false, channel_remap := some m } i s = .ok s)
    ∧ (List.lookup ("channel." ++ s.id) m = none →
      remapStation { remap := false, channel_remap := some m } i s = .ok s) := by
  refine ⟨?_, ?_, ?_⟩
  · intro r hlook hact
    simp [remapStation, hlook, hact]
  · intro r hlook hact
    simp [remapStation, hlook, hact]
  · intro hlook
    simp [remapStation, hlook]

/-- C6 witness: station `x` with an active entry under key `channel.x` is
overridden to channel "7" and call sign "7 KAAA". -/
theorem explicit_map_remap_spec_witness :
    remapStation { remap := false, channel_remap := some [("channel.x", redef1)] } 0 stX
      = .ok { stX with channel_remapped := some "7", callSign_remapped := some "7 KAAA" } :=
  (explicit_map_remap_spec [("channel.x", redef1)] 0 stX).1 redef1 rfl rfl

/-- C7: the `/map.json` entry of a station carrying no remap information has
its remap call sign and remap channel equal to the originals and
`remapped = false`, under the key `channel.<id>`. -/
theorem map_json_unremapped_entry (s : Station) (ch ct : String)
    (hcs : s.callSign_remapped = none) (hcr : s.channel_remapped = none)
    (hrm : s.remapped = none) (hch : s.channel = some ch) (hct : s.city = some ct) :
    mapJsonEntry s = some ("channel." ++ s.id,
      { original_call_sign := s.callSign, remap_call_sign := s.callSign,
        original_channel := ch, remap_channel := ch, city := ct,
        active := s.active, remapped := false }) := by
  simp [mapJsonEntry, hcs, hcr, hrm, hch, hct]

/-- C7 witness: the unremapped station `x` round-trips its fields. -/
theorem map_json_unremapped_entry_witness :
    mapJsonEntry stX = some ("channel." ++ stX.id,
      { original_call_sign := stX.callSign, remap_call_sign := stX.callSign,
        original_channel := "2", remap_channel := "2", city := "City",
        active := stX.active, remapped := false }) :=
  map_json_unremapped_entry stX "2" "City" rfl rfl rfl rfl rfl

/-- C8: a queue with pairwise distinct segment urls stays duplicate-free both
across the dedup append of a fetched playlist (whatever overlap it lists, the
same playlist twice included) and across a whole pull; membership is tested by
url alone (the source's URL-only `PartialEq`), regardless of played state or
duration. -/
theorem segment_dedup_by_url (env : PullEnv) (st : StreamState)
    (h : (queueUrls st.segments).Nodup) :
    (∀ pl st', appendSegments env st pl = some st' → (queueUrls st'.segments).Nodup)
    ∧ (∀ chunk st', pullStep env st = some (chunk, st') → (queueUrls st'.segments).Nodup) := by
  constructor
  · intro pl st' happ
    exact appendSegments_nodup env pl st st' happ h
  · intro chunk st' hp
    obtain ⟨st1, pl, st2, hr, hpl, ha, hs⟩ := pullStep_some env st chunk st' hp
    obtain ⟨hsegs1, -, -⟩ := refreshPhase_some env st st1 hr
    have h1 : (queueUrls st1.segments).Nodup := by rw [hsegs1]; exact h
    have h2 := appendSegments_nodup env pl st1 st2 ha h1
    have h3 := drainPhase_nodup st2 h2
    obtain ⟨f, segs', hm, -, hsegs, -, -, -⟩ := servePhase_some env (drainPhase st2) chunk st' hs
    rw [← markFirstUnplayed_urls (drainPhase st2).segments f segs' hm] at h3
    rw [hsegs]
    exact h3

set_option maxRecDepth 100000 in
/-- C8 witness: a playlist listing `u1` twice produces a queue with the two
distinct urls `u1`, `u2` and no duplicate. -/
theorem segment_dedup_by_url_witness :
    (queueUrls
      ({ segments := [{ url := "u1", played := true, duration := 2 },
           { url := "u2", played := false, duration := 3 }],
         url := "http://pl", seconds_served := 0 + 2,
         count_down := COUNT_DOWN - 2 } : StreamState).segments).Nodup :=
  (segment_dedup_by_url envC8 (initialStreamState "http://pl") (by decide)).2 "B"
    { segments := [{ url := "u1", played := true, duration := 2 },
        { url := "u2", played := false, duration := 3 }],
      url := "http://pl", seconds_served := 0 + 2, count_down := COUNT_DOWN - 2 } rfl

/-- C10: the discover handler's DeviceID is the lowercase hexadecimal rendering
of `hdhr_checksum(device_id) + device_id`, where `device_id` is the first 8
characters of the configured uuid parsed in base 16; a uuid shorter than 8
characters, or one whose first 8 characters do not parse in base 16, makes the
handler panic (modelled `none`) instead of producing a response. -/
theorem discover_device_id_spec (checksum : Nat → Nat) (uuid : String) :
    (∀ d, 8 ≤ uuid.length → parseHexUsize (uuid.take 8) = some d →
      checksum d + d < 2 ^ 64 →
      discoverDeviceID checksum uuid = some (String.mk (Nat.toDigits 16 (checksum d + d))))
    ∧ (uuid.length < 8 → discoverDeviceID checksum uuid = none)
    ∧ (parseHexUsize (uuid.take 8) = none → discoverDeviceID checksum uuid = none) := by
  refine ⟨?_, ?_, ?_⟩
  · intro d hlen hparse hlt
    rw [discoverDeviceID, if_neg (by omega), hparse]
    show some (String.mk (Nat.toDigits 16 ((checksum d + d) % 2 ^ 64)))
        = some (String.mk (Nat.toDigits 16 (checksum d + d)))
    rw [Nat.mod_eq_of_lt hlt]
  · intro h
    rw [discoverDeviceID, if_pos h]
  · intro h
    rw [discoverDeviceID]
    by_cases hlen : uuid.length < 8
    · rw [if_pos hlen]
    · rw [if_neg hlen, h]

/-- C10 witness: uuid "deadbeef-0000" with the zero checksum yields the
lowercase hexadecimal DeviceID "deadbeef". -/
theorem discover_device_id_spec_witness :
    discoverDeviceID (fun _ => 0) "deadbeef-0000"
      = some (String.mk (Nat.toDigits 16 3735928559)) :=
  (discover_device_id_spec (fun _ => 0) "deadbeef-0000").1 3735928559
    (by decide) (by decide) (by decide)
